import Mathlib

/-!
Shallow embedding of `clipboard_monitor_gui.go` (package main of the
Clipboard_monotor repository) together with a model of the parts of Go's
`regexp` package the program uses (`Compile`, `MustCompile`, `MatchString`,
`ReplaceAllString` with `$`-template expansion).

Strings are modelled as `List Char` (Go strings are UTF-8; all byte-level
operations the program performs — length and the control-byte class — agree
with the rune-level model on valid Unicode text, and `strByteLen` computes
the UTF-8 byte length exactly where Go uses `len`).  Machine integers
(`int`, `time.Duration`) are modelled as unbounded `Int`; the values the
program manipulates stay far below the `int64` range.  All recursive
functions take explicit fuel so that every definition is a plain structural
recursion the kernel can evaluate; the fuel supplied at each call site is
large enough that exhaustion is unreachable.
-/

namespace ClipboardMonitor

/-- Clipboard text, modelled as a list of characters (Go runes). -/
abbrev Str := List Char

/-! ## Regular expressions: the subset of Go `regexp` syntax and semantics
the program relies on.  Matching is leftmost-first (Perl priority order,
which is what Go's regexp implements), quantifiers are greedy, groups are
numbered by order of the opening parenthesis starting at 1. -/

/-- Abstract syntax of a compiled regular expression.  `cls rs neg` is a
character class given by inclusive ranges with an optional negation flag;
`anyNoNL` is `.` (any character except newline, Go's default). -/
inductive Re where
  | emptyMatch : Re
  | lit (c : Char) : Re
  | cls (ranges : List (Char × Char)) (neg : Bool) : Re
  | anyNoNL : Re
  | concat (a b : Re) : Re
  | alt (a b : Re) : Re
  | star (a : Re) : Re
  | group (idx : Nat) (a : Re) : Re
deriving DecidableEq, Repr

/-- Capture list: group index paired with the captured substring; the most
recent capture for an index (head-most entry) wins, matching the final
state of Go's match vector on the accepted path. -/
abbrev Caps := List (Nat × Str)

/-- Membership of a character in a class given by ranges and negation flag
(rune comparisons, as in Go). -/
def inClsB (ranges : List (Char × Char)) (neg : Bool) (c : Char) : Bool :=
  let hit := ranges.any fun p => decide (p.1.toNat ≤ c.toNat ∧ c.toNat ≤ p.2.toNat)
  if neg then !hit else hit

/-- Backtracking matcher in continuation-passing style with leftmost-first
priority: alternation prefers its left branch, `star` prefers iterating.
A `star` iteration must consume at least one character (empty-width loop
iterations are cut, as in Go's VM).  Fuel bounds the recursion depth; the
fuel supplied by `matchFuel` makes exhaustion unreachable. -/
def mrun : Nat → Re → Str → Caps → (Str → Caps → Option (Str × Caps)) →
    Option (Str × Caps)
  | 0, _, _, _, _ => none
  | _ + 1, .emptyMatch, t, caps, k => k t caps
  | _ + 1, .lit c, t, caps, k =>
    match t with
    | [] => none
    | c2 :: rest => if c2 = c then k rest caps else none
  | _ + 1, .cls rs neg, t, caps, k =>
    match t with
    | [] => none
    | c2 :: rest => if inClsB rs neg c2 then k rest caps else none
  | _ + 1, .anyNoNL, t, caps, k =>
    match t with
    | [] => none
    | c2 :: rest => if c2 = '\n' then none else k rest caps
  | f + 1, .concat a b, t, caps, k =>
    mrun f a t caps fun t2 caps2 => mrun f b t2 caps2 k
  | f + 1, .alt a b, t, caps, k =>
    (mrun f a t caps k) <|> (mrun f b t caps k)
  | f + 1, .star a, t, caps, k =>
    (mrun f a t caps fun t2 caps2 =>
      if t2.length < t.length then mrun f (.star a) t2 caps2 k else none) <|>
    k t caps
  | f + 1, .group i a, t, caps, k =>
    mrun f a t caps fun t2 caps2 =>
      k t2 ((i, t.take (t.length - t2.length)) :: caps2)

/-- Structural size of a regex, used to budget matcher fuel. -/
def reSize : Re → Nat
  | .emptyMatch | .lit _ | .cls _ _ | .anyNoNL => 1
  | .concat a b | .alt a b => reSize a + reSize b + 1
  | .star a | .group _ a => reSize a + 1

/-- Fuel budget for one anchored match attempt: generous enough that the
matcher never runs out (each star iteration consumes at least one input
character, so recursion depth is bounded by `|input| * |regex|` up to
constants). -/
def matchFuel (re : Re) (t : Str) : Nat :=
  (t.length + 2) * (reSize re + 2)

/-- Anchored match of `re` at the start of `t`: returns the number of
characters consumed by the leftmost-first match and the captures. -/
def anchoredMatch (re : Re) (t : Str) : Option (Nat × Caps) :=
  match mrun (matchFuel re t) re t [] (fun rem caps => some (rem, caps)) with
  | some (rem, caps) => some (t.length - rem.length, caps)
  | none => none

/-- Scan for the leftmost match of `re` in `s` starting at position `p` or
later (Go `doExecute` from a search position).  Returns
`(start, end, captures)`.  Fuel counts the candidate start positions left. -/
def findFromGo (re : Re) (s : Str) : Nat → Nat → Option (Nat × Nat × Caps)
  | 0, _ => none
  | f + 1, p =>
    if p ≤ s.length then
      match anchoredMatch re (s.drop p) with
      | some (n, caps) => some (p, p + n, caps)
      | none => findFromGo re s f (p + 1)
    else none

/-- Leftmost match of `re` in `s` at or after position `p`. -/
def findFrom (re : Re) (s : Str) (p : Nat) : Option (Nat × Nat × Caps) :=
  findFromGo re s (s.length + 1 - p) p

/-- Model of Go `(*Regexp).MatchString`. -/
def matchString (re : Re) (s : Str) : Bool :=
  (findFrom re s 0).isSome

/-- The slice `s[i:j]` of a Go string, at rune granularity. -/
def extractSeg (s : Str) (i j : Nat) : Str :=
  (s.drop i).take (j - i)

/-! ### Replacement-template expansion (Go `(*Regexp).expand`). -/

/-- Characters allowed in a `$name` reference (Go uses Unicode
letters/digits plus underscore; ASCII approximation). -/
def isNameChar (c : Char) : Bool :=
  c.isAlphanum || c = '_'

/-- Literal translation of the digit-parsing loop in Go's
`regexp.extract`: returns `-1` when the name is not a plain number (or
overflows the `1e8` guard). -/
def numLoop : Str → Int → Int
  | [], num => num
  | c :: rest, num =>
    if c < '0' ∨ c > '9' ∨ num ≥ 100000000 then -1
    else numLoop rest (num * 10 + (c.toNat - 48))

/-- Group number denoted by a reference name: `none` when the name is
non-numeric (it would be looked up among named groups, of which the
program has none) or has a disallowed leading zero. -/
def parseGroupNum (nm : Str) : Option Nat :=
  let v := numLoop nm 0
  let v := if nm.head? = some '0' ∧ nm.length > 1 then -1 else v
  if v < 0 then none else some v.toNat

/-- Model of Go's `regexp.extract`: parse a `$name` or `${name}` reference
right after the `$`.  Returns the referenced group number (`none` inside
`some` for a non-numeric name) and the rest of the template, or `none`
when the reference is malformed (the `$` is then literal text). -/
def extractRef : Str → Option (Option Nat × Str)
  | '{' :: rest =>
    let nm := rest.takeWhile isNameChar
    let r2 := rest.dropWhile isNameChar
    if nm = [] then none
    else
      match r2 with
      | '}' :: r3 => some (parseGroupNum nm, r3)
      | _ => none
  | s =>
    let nm := s.takeWhile isNameChar
    if nm = [] then none else some (parseGroupNum nm, s.dropWhile isNameChar)

/-- Text contributed by a group reference: group 0 is the whole match,
missing captures and non-numeric names contribute the empty string. -/
def capLookup (whole : Str) (caps : Caps) : Option Nat → Str
  | none => []
  | some 0 => whole
  | some n =>
    match caps.find? fun pr => pr.1 == n with
    | some pr => pr.2
    | none => []

/-- Expansion of a replacement template over one match (Go `expand`):
`$$` is a literal dollar, `$name`/`${name}` insert the captured group,
a malformed reference leaves the `$` literal.  Fuel is the template
length plus one; each step consumes at least one template character. -/
def expandGo (whole : Str) (caps : Caps) : Nat → Str → Str
  | 0, t => t
  | _ + 1, [] => []
  | f + 1, '$' :: '$' :: rest => '$' :: expandGo whole caps f rest
  | f + 1, '$' :: rest =>
    match extractRef rest with
    | some (ref, rest2) => capLookup whole caps ref ++ expandGo whole caps f rest2
    | none => '$' :: expandGo whole caps f rest
  | f + 1, c :: rest => c :: expandGo whole caps f rest

/-- Expand a replacement template for a match with the given whole-match
text and captures. -/
def expand (template whole : Str) (caps : Caps) : Str :=
  expandGo whole caps (template.length + 1) template

/-! ### `ReplaceAllString` (Go `(*Regexp).replaceAll`). -/

/-- Literal translation of the scan loop of Go's `replaceAll` (rune width
is 1 at this granularity): repeatedly find the leftmost match at or after
`searchPos`, copy the unmatched span, insert the expanded replacement —
except for an empty match immediately after a previous match — and
advance by at least one position.  Fuel bounds the number of loop
iterations; `searchPos` strictly increases, so `|src| + 2` is enough. -/
def replGo (re : Re) (src repl : Str) : Nat → Nat → Nat → Str → Str
  | 0, _, lastMatchEnd, dst => dst ++ src.drop lastMatchEnd
  | f + 1, searchPos, lastMatchEnd, dst =>
    if searchPos ≤ src.length then
      match findFrom re src searchPos with
      | none => dst ++ src.drop lastMatchEnd
      | some (a0, a1, caps) =>
        let dst2 := dst ++ extractSeg src lastMatchEnd a0
        let dst3 :=
          if lastMatchEnd < a1 ∨ a0 = 0 then
            dst2 ++ expand repl (extractSeg src a0 a1) caps
          else dst2
        replGo re src repl f (if a1 < searchPos + 1 then searchPos + 1 else a1) a1 dst3
    else dst ++ src.drop lastMatchEnd

/-- Model of Go `(*Regexp).ReplaceAllString src repl`. -/
def replaceAllString (re : Re) (src repl : Str) : Str :=
  replGo re src repl (src.length + 2) 0 0 []

/-! ### Pattern compilation (Go `regexp.Compile`).

Recursive-descent parser for the subset of Go regexp syntax exercised by
this program: literals, `.`, `|`, greedy `*`/`+`/`?`, capturing groups,
character classes with ranges, negation and escapes, and the escapes
`\d \D \w \W \s \S \n \t \r \f \v \a \xHH` plus escaped punctuation.
Constructs outside the subset (anchors, counted repetition `{m,n}`,
non-greedy operators, named or non-capturing groups, class-internal
negated escapes, backreferences) make compilation fail, as do the
patterns Go itself rejects (unterminated classes or groups, empty
classes, reversed ranges, dangling operators, unknown escapes). -/

/-- Ranges for the `\d` escape. -/
def digitRanges : List (Char × Char) := [('0', '9')]

/-- Ranges for the `\w` escape. -/
def wordRanges : List (Char × Char) := [('0', '9'), ('A', 'Z'), ('_', '_'), ('a', 'z')]

/-- Ranges for the `\s` escape (Go: `[\t\n\f\r ]`). -/
def spaceRanges : List (Char × Char) :=
  [(Char.ofNat 9, Char.ofNat 10), (Char.ofNat 12, Char.ofNat 13), (' ', ' ')]

/-- Value of a hexadecimal digit. -/
def hexVal? (c : Char) : Option Nat :=
  if '0' ≤ c ∧ c ≤ '9' then some (c.toNat - 48)
  else if 'a' ≤ c ∧ c ≤ 'f' then some (c.toNat - 87)
  else if 'A' ≤ c ∧ c ≤ 'F' then some (c.toNat - 55)
  else none

/-- Single-character escapes: control-character escapes, or escaped
punctuation taken literally.  Escaped letters or digits outside the known
set are errors (as in Go). -/
def escChar? (c : Char) : Option Char :=
  if c = 'n' then some (Char.ofNat 10)
  else if c = 't' then some (Char.ofNat 9)
  else if c = 'r' then some (Char.ofNat 13)
  else if c = 'f' then some (Char.ofNat 12)
  else if c = 'v' then some (Char.ofNat 11)
  else if c = 'a' then some (Char.ofNat 7)
  else if c.isAlphanum then none
  else some c

/-- Escape as a standalone atom. -/
def escAtom? (c : Char) : Option Re :=
  if c = 'd' then some (.cls digitRanges false)
  else if c = 'D' then some (.cls digitRanges true)
  else if c = 'w' then some (.cls wordRanges false)
  else if c = 'W' then some (.cls wordRanges true)
  else if c = 's' then some (.cls spaceRanges false)
  else if c = 'S' then some (.cls spaceRanges true)
  else
    match escChar? c with
    | some ch => some (.lit ch)
    | none => none

/-- One endpoint character inside a class: a plain character, `\xHH`, or a
single-character escape. -/
def parseClassChar : Str → Option (Char × Str)
  | '\\' :: 'x' :: h1 :: h2 :: rest =>
    match hexVal? h1, hexVal? h2 with
    | some v1, some v2 => some (Char.ofNat (16 * v1 + v2), rest)
    | _, _ => none
  | '\\' :: e :: rest =>
    match escChar? e with
    | some ch => some (ch, rest)
    | none => none
  | '\\' :: [] => none
  | ']' :: _ => none
  | c :: rest => some (c, rest)
  | [] => none

/-- Items of a character class up to the closing `]`.  Supports plain
characters, ranges `a-b` (rejecting reversed ranges, as Go does), the
multi-range escapes `\d`/`\w`/`\s`, and a trailing literal `-`. -/
def parseClassItems : Nat → Str → List (Char × Char) →
    Option (List (Char × Char) × Str)
  | 0, _, _ => none
  | _ + 1, [], _ => none
  | _ + 1, ']' :: rest, acc => if acc = [] then none else some (acc, rest)
  | f + 1, '\\' :: 'd' :: rest, acc => parseClassItems f rest (acc ++ digitRanges)
  | f + 1, '\\' :: 'w' :: rest, acc => parseClassItems f rest (acc ++ wordRanges)
  | f + 1, '\\' :: 's' :: rest, acc => parseClassItems f rest (acc ++ spaceRanges)
  | f + 1, t, acc =>
    match parseClassChar t with
    | none => none
    | some (lo, rest1) =>
      match rest1 with
      | '-' :: r2 =>
        if r2.head? = some ']' ∨ r2 = [] then
          parseClassItems f rest1 (acc ++ [(lo, lo)])
        else
          match parseClassChar r2 with
          | none => none
          | some (hi, r3) =>
            if lo.toNat ≤ hi.toNat then parseClassItems f r3 (acc ++ [(lo, hi)])
            else none
      | _ => parseClassItems f rest1 (acc ++ [(lo, lo)])

/-- Body of a character class after the opening `[`: optional leading `^`
negation, then at least one item. -/
def parseClass (f : Nat) : Str → Option (Re × Str)
  | '^' :: rest =>
    match parseClassItems f rest [] with
    | some (rs, rest2) => some (.cls rs true, rest2)
    | none => none
  | t =>
    match parseClassItems f t [] with
    | some (rs, rest2) => some (.cls rs false, rest2)
    | none => none

/-- Apply at most one repetition operator to an atom (`+` and `?` are
desugared to `star`/`alt`; a second consecutive operator, including Go's
non-greedy forms, is rejected). -/
def parseRepeat (a : Re) : Str → Option (Re × Str)
  | '*' :: rest =>
    if rest.head? = some '*' ∨ rest.head? = some '+' ∨ rest.head? = some '?' then none
    else some (.star a, rest)
  | '+' :: rest =>
    if rest.head? = some '*' ∨ rest.head? = some '+' ∨ rest.head? = some '?' then none
    else some (.concat a (.star a), rest)
  | '?' :: rest =>
    if rest.head? = some '*' ∨ rest.head? = some '+' ∨ rest.head? = some '?' then none
    else some (.alt a .emptyMatch, rest)
  | t => some (a, t)

/-- A single atom, parameterized by the parser for the body of a
capturing group: a group, a character class, `.`, an escape, or a literal
character.  Anchors, `{`, and dangling repetition operators are
rejected. -/
def parseAtomF (recAlt : Str → Nat → Option (Re × Str × Nat)) :
    Str → Nat → Option (Re × Str × Nat)
  | '(' :: rest, g =>
    match recAlt rest (g + 1) with
    | some (r, ')' :: rest2, g1) => some (.group g r, rest2, g1)
    | _ => none
  | '[' :: rest, g =>
    match parseClass (rest.length + 1) rest with
    | some (r, rest1) => some (r, rest1, g)
    | none => none
  | '.' :: rest, g => some (.anyNoNL, rest, g)
  | '\\' :: 'x' :: h1 :: h2 :: rest, g =>
    match hexVal? h1, hexVal? h2 with
    | some v1, some v2 => some (.lit (Char.ofNat (16 * v1 + v2)), rest, g)
    | _, _ => none
  | '\\' :: 'x' :: _, _ => none
  | '\\' :: e :: rest, g =>
    match escAtom? e with
    | some r => some (r, rest, g)
    | none => none
  | '\\' :: [], _ => none
  | '^' :: _, _ => none
  | '$' :: _, _ => none
  | '{' :: _, _ => none
  | '*' :: _, _ => none
  | '+' :: _, _ => none
  | '?' :: _, _ => none
  | c :: rest, g => some (.lit c, rest, g)
  | [], _ => none

/-- Further atoms of a concatenation, folded left-associatively; the
fuel bounds the number of atoms, each of which consumes at least one
pattern character. -/
def parseConcatContF (atom : Str → Nat → Option (Re × Str × Nat)) :
    Nat → Re → Str → Nat → Option (Re × Str × Nat)
  | 0, _, _, _ => none
  | f + 1, acc, t, g =>
    match t with
    | [] => some (acc, [], g)
    | '|' :: _ => some (acc, t, g)
    | ')' :: _ => some (acc, t, g)
    | _ =>
      match atom t g with
      | some (a, t1, g1) =>
        match parseRepeat a t1 with
        | some (a2, t2) => parseConcatContF atom f (.concat acc a2) t2 g1
        | none => none
      | none => none

/-- A concatenation: a possibly empty sequence of repeated atoms, ending
at `|`, `)` or the end of the pattern. -/
def parseConcatF (atom : Str → Nat → Option (Re × Str × Nat)) (t : Str) (g : Nat) :
    Option (Re × Str × Nat) :=
  match t with
  | [] => some (.emptyMatch, [], g)
  | '|' :: _ => some (.emptyMatch, t, g)
  | ')' :: _ => some (.emptyMatch, t, g)
  | _ =>
    match atom t g with
    | some (a, t1, g1) =>
      match parseRepeat a t1 with
      | some (a2, t2) => parseConcatContF atom (t.length + 1) a2 t2 g1
      | none => none
    | none => none

/-- Remaining `|`-separated branches of an alternation, folded
left-associatively. -/
def parseAltContF (conc : Str → Nat → Option (Re × Str × Nat)) :
    Nat → Re → Str → Nat → Option (Re × Str × Nat)
  | 0, _, _, _ => none
  | f + 1, acc, '|' :: rest, g =>
    match conc rest g with
    | some (r2, t2, g2) => parseAltContF conc f (.alt acc r2) t2 g2
    | none => none
  | _ + 1, acc, t, g => some (acc, t, g)

/-- An alternation: one or more concatenations separated by `|`.  The
fuel bounds the nesting depth of capturing groups. -/
def parseAlt : Nat → Str → Nat → Option (Re × Str × Nat)
  | 0, _, _ => none
  | f + 1, t, g =>
    match parseConcatF (parseAtomF (parseAlt f)) t g with
    | some (r1, t1, g1) =>
      parseAltContF (parseConcatF (parseAtomF (parseAlt f))) (t1.length + 1) r1 t1 g1
    | none => none

/-- Model of Go `regexp.Compile`: parse the whole pattern, numbering
capturing groups from 1.  The fuel `|p| + 2` exceeds any possible group
nesting depth. -/
def compile (p : Str) : Option Re :=
  match parseAlt (p.length + 2) p 1 with
  | some (re, [], _) => some re
  | _ => none

/-- Model of Go `regexp.MustCompile` at the patterns the program feeds it
(which do compile; the fallback value is never reached). -/
def mustCompile (p : Str) : Re :=
  (compile p).getD .emptyMatch

/-! ## The program: `clipboard_monitor_gui.go`. -/

/-- Source: `const maxTextSize = 512 * 512`. -/
def maxTextSize : Nat := 512 * 512

/-- UTF-8 byte length of a string, which is what Go's `len` returns. -/
def strByteLen : Str → Nat
  | [] => 0
  | c :: rest => c.utf8Size + strByteLen rest

/-- The control-character class rejected by `isTextContent`, as written in
the source. -/
def ctrlPattern : String := "[\\x00-\\x08\\x0B\\x0C\\x0E-\\x1F]"

/-- Source: `isTextContent` — non-empty and no match of the
control-character regex. -/
def isTextContent (content : Str) : Bool :=
  decide (0 < content.length) && !(matchString (mustCompile ctrlPattern.toList) content)

/-- Source: `isTextTooLarge` — byte length strictly above `maxTextSize`. -/
def isTextTooLarge (content : Str) : Bool :=
  decide (maxTextSize < strByteLen content)

/-- Source: `type Rule struct` — `Regexp` is the derived compiled matcher
(`json:"-"`, never persisted; `none` models the nil pointer). -/
structure Rule where
  pattern : Str
  replacement : Str
  enabled : Bool
  regexp : Option Re
deriving DecidableEq, Repr

/-- A rule as it appears in `settings.json`: exactly the marshalled fields
(`Regexp` carries the `json:"-"` tag and is dropped). -/
structure PRule where
  pattern : Str
  replacement : Str
  enabled : Bool
deriving DecidableEq, Repr

/-- The persisted settings document: the anonymous struct serialized
to/from `settings.json` (`rules` plus `interval_ms`).  The JSON encoding
itself round-trips these fields verbatim, so the document is modelled as
the parsed structure. -/
structure SettingsDoc where
  rules : List PRule
  interval_ms : Int
deriving DecidableEq, Repr

/-- The three outcomes of reading `settings.json`: `os.ReadFile` fails,
`json.Unmarshal` fails, or a parsed document. -/
inductive LoadInput where
  | missing : LoadInput
  | unparsable : LoadInput
  | parsed (doc : SettingsDoc) : LoadInput
deriving DecidableEq

/-- The mutable globals touched by load/save: `replacementRules` and
`monitorInterval` (a `time.Duration`, in nanoseconds). -/
structure AppState where
  rules : List Rule
  interval : Int
deriving DecidableEq, Repr

/-- Source line 28: `monitorInterval = 500 * time.Millisecond` — the
initial (default) interval, in nanoseconds. -/
def defaultMonitorInterval : Int := 500 * 1000000

/-- The globals at process start: no rules, default interval. -/
def initState : AppState := { rules := [], interval := defaultMonitorInterval }

/-- Go `time.Duration.Milliseconds()`: nanoseconds divided by `1e6`,
truncated toward zero. -/
def durationMilliseconds (d : Int) : Int := Int.tdiv d 1000000

/-- Source: `saveSettings` — serialize the rule list (pattern,
replacement, enabled; never the compiled matcher) and the interval in
milliseconds. -/
def saveSettings (st : AppState) : SettingsDoc :=
  { rules := st.rules.map fun r => { pattern := r.pattern, replacement := r.replacement, enabled := r.enabled }
    interval_ms := durationMilliseconds st.interval }

/-- The per-rule body of the load loop: unmarshalling leaves `Regexp` nil;
a non-empty pattern is compiled, and on compilation failure the rule is
kept with an absent matcher (`continue` after logging). -/
def loadRule (pr : PRule) : Rule :=
  let base : Rule := { pattern := pr.pattern, replacement := pr.replacement, enabled := pr.enabled, regexp := none }
  if pr.pattern = [] then base
  else
    match compile pr.pattern with
    | some re => { base with regexp := some re }
    | none => base

/-- Source: `loadSettings` — a missing file resets the rule list and keeps
the current interval; an unparsable file leaves both untouched; a parsed
document replaces the rules (compiling each non-empty pattern) and sets
`monitorInterval` to `Duration(interval_ms) * Millisecond`,
unconditionally. -/
def loadSettings (input : LoadInput) (prev : AppState) : AppState :=
  match input with
  | .missing => { prev with rules := [] }
  | .unparsable => prev
  | .parsed doc =>
    { rules := doc.rules.map loadRule, interval := doc.interval_ms * 1000000 }

/-- Source: `maxAttempts := 2` in `writeToClipboard`. -/
def maxWriteAttempts : Nat := 2

/-- The retry loop of `writeToClipboard` over an oracle giving each
attempt's outcome; returns whether some attempt succeeded together with
the number of attempts performed (ghost instrumentation — the Go function
returns only the error). -/
def writeGo (attempt : Nat → Bool) : Nat → Nat → Bool × Nat
  | 0, i => (false, i)
  | f + 1, i => if attempt i then (true, i + 1) else writeGo attempt f (i + 1)

/-- Source: `writeToClipboard` — up to `maxAttempts` attempts, returning
on the first success. -/
def writeToClipboard (attempt : Nat → Bool) : Bool × Nat :=
  writeGo attempt maxWriteAttempts 0

/-- The loop body of `applyRules`: an enabled rule with a non-nil compiled
matcher rewrites the current text via `ReplaceAllString`; any other rule
leaves it unchanged. -/
def ruleApply (currentText : Str) (rule : Rule) : Str :=
  if rule.enabled then
    match rule.regexp with
    | some re => replaceAllString re currentText rule.replacement
    | none => currentText
  else currentText

/-- Source: `applyRules` — fold the rule list over the text, left to
right. -/
def applyRules (rules : List Rule) (currentText : Str) : Str :=
  rules.foldl ruleApply currentText

/-- Outcome of `clipboard.ReadAll()` in one cycle: text, the
"non-text content" error recognized by its message, or any other error. -/
inductive ReadResult where
  | ok (s : Str) : ReadResult
  | nonTextErr : ReadResult
  | otherErr : ReadResult
deriving DecidableEq

/-- The branch taken by one cycle of `monitorClipboard` (which status was
set and whether a write happened). -/
inductive CycleAction where
  | skipNonTextErr : CycleAction
  | readErr : CycleAction
  | skipNonText : CycleAction
  | skipTooLarge : CycleAction
  | unchanged : CycleAction
  | noopTransform : CycleAction
  | wrote (t : Str) : CycleAction
  | writeFailed (t : Str) : CycleAction
deriving DecidableEq, Repr

/-- One `monitoring`-enabled iteration of the `monitorClipboard` loop as a
pure function of the shared state (`lastText`), the read outcome and the
write-attempt oracle: classify, compare against `lastText`, transform via
`applyRules`, and write back when the transformation changed the text;
`lastText` is updated only on a successful write. -/
def monitorCycle (rules : List Rule) (lastText : Str) (input : ReadResult)
    (attempt : Nat → Bool) : Str × CycleAction :=
  match input with
  | .nonTextErr => (lastText, .skipNonTextErr)
  | .otherErr => (lastText, .readErr)
  | .ok currentText =>
    if isTextContent currentText = false then (lastText, .skipNonText)
    else if isTextTooLarge currentText = true then (lastText, .skipTooLarge)
    else if currentText = lastText then (lastText, .unchanged)
    else
      let updatedText := applyRules rules currentText
      if updatedText = currentText then (lastText, .noopTransform)
      else if (writeToClipboard attempt).1 = true then
        (updatedText, .wrote updatedText)
      else (lastText, .writeFailed updatedText)

/-- Source: the `addRuleButton` handler in `createUI` — reject empty
pattern or replacement entries, compile the pattern, and only on success
append a new enabled rule carrying the compiled matcher. -/
def addRule (rules : List Rule) (patternEntry replacementEntry : Str) : List Rule :=
  if patternEntry = [] ∨ replacementEntry = [] then rules
  else
    match compile patternEntry with
    | none => rules
    | some re =>
      rules ++ [{ pattern := patternEntry, replacement := replacementEntry,
                  enabled := true, regexp := some re }]

/-- The persisted fields of an in-memory rule. -/
def persistedOfRule (r : Rule) : PRule :=
  { pattern := r.pattern, replacement := r.replacement, enabled := r.enabled }

/-- A concrete rule used in witnesses and counterexamples: pattern `a`,
replacement `aa`, enabled, with its compiled matcher. -/
def demoRuleA : Rule :=
  { pattern := "a".toList, replacement := "aa".toList, enabled := true,
    regexp := some (mustCompile "a".toList) }

/-- Demo rule list for witnesses and counterexamples. -/
def demoRules : List Rule := [demoRuleA]

/-- A concrete rule with pattern `foo` and replacement `bar`, as in the
specification's first example scenario. -/
def fooRule : Rule :=
  { pattern := "foo".toList, replacement := "bar".toList, enabled := true,
    regexp := some (mustCompile "foo".toList) }

/-- A control character outside the common whitespace set: byte value in
`0x00–0x08`, `0x0B`, `0x0C` or `0x0E–0x1F` (tab `0x09`, newline `0x0A`
and carriage return `0x0D` are allowed). -/
def isCtrlChar (c : Char) : Prop :=
  c.toNat ≤ 8 ∨ c.toNat = 11 ∨ c.toNat = 12 ∨ (14 ≤ c.toNat ∧ c.toNat ≤ 31)

/-- The ranges the control-character pattern compiles to. -/
def ctrlRanges : List (Char × Char) :=
  [(Char.ofNat 0, Char.ofNat 8), (Char.ofNat 11, Char.ofNat 11),
   (Char.ofNat 12, Char.ofNat 12), (Char.ofNat 14, Char.ofNat 31)]

/-- The left-to-right fold described by the specification of
`apply(rules, text)`: starting from the input, each enabled rule with a
valid compiled matcher replaces every non-overlapping match (with
back-reference expansion) in the current intermediate string, and every
disabled or matcher-less rule leaves the intermediate string unchanged. -/
inductive ApplyChain : List Rule → Str → Str → Prop where
  | nil (t : Str) : ApplyChain [] t t
  | stepApply (r : Rule) (rs : List Rule) (t u : Str) (re : Re) :
      r.enabled = true → r.regexp = some re →
      ApplyChain rs (replaceAllString re t r.replacement) u →
      ApplyChain (r :: rs) t u
  | stepSkip (r : Rule) (rs : List Rule) (t u : Str) :
      r.enabled = false ∨ r.regexp = none →
      ApplyChain rs t u →
      ApplyChain (r :: rs) t u

/-- A text one byte above the size ceiling, for the size-gate witness. -/
def bigText : Str := List.replicate (256 * 1024 + 1) 'a'

/-- Decidability of the control-character predicate. -/
instance (c : Char) : Decidable (isCtrlChar c) := by
  unfold isCtrlChar
  infer_instance

/-- A concrete settings state with one valid and one invalid pattern, for
the round-trip witness. -/
def roundTripState : AppState :=
  { rules := [fooRule,
      { pattern := "[".toList, replacement := "x".toList, enabled := true, regexp := none }],
    interval := 500000000 }

/-! ## Helper lemmas. -/

lemma ruleApply_of_none (t : Str) (r : Rule) (h : r.regexp = none) :
    ruleApply t r = t := by
  simp [ruleApply, h]

lemma ruleApply_of_disabled (t : Str) (r : Rule) (h : r.enabled = false) :
    ruleApply t r = t := by
  simp [ruleApply, h]

lemma ruleApply_of_enabled_some (t : Str) (r : Rule) (re : Re)
    (h1 : r.enabled = true) (h2 : r.regexp = some re) :
    ruleApply t r = replaceAllString re t r.replacement := by
  simp [ruleApply, h1, h2]

lemma applyRules_cons (r : Rule) (rs : List Rule) (t : Str) :
    applyRules (r :: rs) t = applyRules rs (ruleApply t r) := rfl

/-- When the scan finds no match at all, `ReplaceAllString` returns the
source unchanged. -/
lemma replaceAllString_of_no_match (re : Re) (src repl : Str)
    (h : findFrom re src 0 = none) : replaceAllString re src repl = src := by
  unfold replaceAllString
  rw [show src.length + 2 = (src.length + 1) + 1 from rfl]
  simp [replGo, h]

/-- The fields that `loadSettings` writes back into a rule are exactly the
persisted ones. -/
lemma persistedOfRule_loadRule (pr : PRule) : persistedOfRule (loadRule pr) = pr := by
  cases pr with
  | mk p rep en =>
    unfold loadRule
    by_cases hp : p = []
    · simp [hp, persistedOfRule]
    · simp only [hp, if_false]
      cases hc : compile p <;> simp [persistedOfRule]

/-- A rule whose pattern does not compile is loaded with an absent
matcher. -/
lemma loadRule_regexp_of_compile_none (pr : PRule) (h : compile pr.pattern = none) :
    (loadRule pr).regexp = none := by
  unfold loadRule
  by_cases hp : pr.pattern = []
  · simp [hp]
  · simp [hp, h]

lemma strByteLen_replicate_a (n : Nat) :
    strByteLen (List.replicate n 'a') = n := by
  induction n with
  | zero => rfl
  | succ m ih =>
    rw [List.replicate_succ, strByteLen, ih, show Char.utf8Size 'a' = 1 from by decide]
    omega

/-- One anchored step of the matcher on a bare character class. -/
lemma anchoredMatch_cls (rs : List (Char × Char)) (neg : Bool) (t : Str) :
    anchoredMatch (.cls rs neg) t =
      match t with
      | [] => none
      | c :: _ => if inClsB rs neg c then some (1, []) else none := by
  have hpos : 0 < matchFuel (Re.cls rs neg) t := by
    unfold matchFuel
    exact Nat.mul_pos (by omega) (by omega)
  obtain ⟨m, hm⟩ : ∃ m, matchFuel (Re.cls rs neg) t = m + 1 :=
    ⟨matchFuel (Re.cls rs neg) t - 1, by omega⟩
  unfold anchoredMatch
  rw [hm]
  cases t with
  | nil => simp [mrun]
  | cons c rest =>
    by_cases h : inClsB rs neg c
    · simp [mrun, h]
    · simp [mrun, h]

/-- Scanning a bare character class finds a match exactly when some
character of the remaining input is in the class. -/
lemma findFromGo_cls (rs : List (Char × Char)) (neg : Bool) (s : Str) :
    ∀ f p, p + f = s.length + 1 →
      (findFromGo (.cls rs neg) s f p).isSome = (s.drop p).any (inClsB rs neg) := by
  intro f
  induction f with
  | zero =>
    intro p hp
    have : s.length ≤ p := by omega
    simp [findFromGo, List.drop_eq_nil_of_le this]
  | succ g ih =>
    intro p hp
    have hple : p ≤ s.length := by omega
    rw [findFromGo]
    rw [if_pos hple, anchoredMatch_cls]
    cases hdrop : s.drop p with
    | nil =>
      have hlen : s.length ≤ p := by
        have := List.drop_eq_nil_iff.mp hdrop
        omega
      have hp2 : p = s.length := by omega
      have : (findFromGo (.cls rs neg) s g (p + 1)).isSome = (s.drop (p + 1)).any (inClsB rs neg) :=
        ih (p + 1) (by omega)
      simp [this, hdrop, List.drop_eq_nil_of_le (by omega : s.length ≤ p + 1)]
    | cons c rest =>
      have hrest : s.drop (p + 1) = rest := by
        have : s.drop (p + 1) = (s.drop p).drop 1 := by
          rw [List.drop_drop]
        rw [this, hdrop]
        rfl
      by_cases h : inClsB rs neg c
      · simp [h, hdrop]
      · have := ih (p + 1) (by omega)
        simp [h, hdrop, this, hrest]

/-- `MatchString` on a bare character class is `List.any` membership. -/
lemma matchString_cls (rs : List (Char × Char)) (neg : Bool) (s : Str) :
    matchString (.cls rs neg) s = s.any (inClsB rs neg) := by
  unfold matchString findFrom
  rw [findFromGo_cls rs neg s (s.length + 1 - 0) 0 (by omega)]
  simp

/-- The control-character pattern from the source compiles to the
expected character class. -/
lemma ctrlRe_eq : mustCompile ctrlPattern.toList = .cls ctrlRanges false := by decide

/-- Membership in the compiled control class coincides with
`isCtrlChar`. -/
lemma inCls_ctrl (c : Char) : inClsB ctrlRanges false c = true ↔ isCtrlChar c := by
  have e0 : (Char.ofNat 0).toNat = 0 := by decide
  have e8 : (Char.ofNat 8).toNat = 8 := by decide
  have e11 : (Char.ofNat 11).toNat = 11 := by decide
  have e12 : (Char.ofNat 12).toNat = 12 := by decide
  have e14 : (Char.ofNat 14).toNat = 14 := by decide
  have e31 : (Char.ofNat 31).toNat = 31 := by decide
  unfold inClsB ctrlRanges isCtrlChar
  simp only [List.any_cons, List.any_nil, Bool.if_false_right, Bool.if_true_left,
    Bool.or_eq_true, decide_eq_true_eq, Bool.false_eq_true, or_false,
    Bool.not_eq_true]
  rw [e0, e8, e11, e12, e14, e31]
  simp only [if_false, Bool.or_false, Bool.or_eq_true, decide_eq_true_eq]
  omega

/-- Characterization of `isTextContent`: non-empty and free of control
characters outside common whitespace. -/
lemma isTextContent_iff (s : Str) :
    isTextContent s = true ↔ s ≠ [] ∧ ∀ c ∈ s, ¬ isCtrlChar c := by
  unfold isTextContent
  rw [ctrlRe_eq, matchString_cls]
  simp only [Bool.and_eq_true, decide_eq_true_eq, Bool.not_eq_true',
    List.any_eq_false, List.length_pos]
  constructor
  · rintro ⟨h1, h2⟩
    exact ⟨h1, fun c hc => by
      have := h2 c hc
      simp only [Bool.not_eq_true] at this
      exact fun hctrl => by rw [(inCls_ctrl c).mpr hctrl] at this; exact Bool.true_eq_false.mp this⟩
  · rintro ⟨h1, h2⟩
    refine ⟨h1, fun c hc => ?_⟩
    have := h2 c hc
    by_cases hb : inClsB ctrlRanges false c = true
    · exact absurd ((inCls_ctrl c).mp hb) this
    · simpa using hb

/-! ## Claim theorems. -/

/-- C1: `applyRules` folds the ordered rule list over the input left to
right — each enabled rule with a valid compiled matcher replaces every
non-overlapping match of its pattern in the current intermediate string by
its replacement (with back-reference expansion) and passes the result to
the next rule, while disabled or matcher-less rules leave the intermediate
string unchanged; `ApplyChain` is that fold stated rule by rule. -/
theorem applyRules_chain_iff (rules : List Rule) (t u : Str) :
    ApplyChain rules t u ↔ applyRules rules t = u := by
  constructor
  · intro h
    induction h with
    | nil t => rfl
    | stepApply r rs t u re h1 h2 hch ih =>
      rw [applyRules_cons, ruleApply_of_enabled_some t r re h1 h2]
      exact ih
    | stepSkip r rs t u hskip hch ih =>
      rw [applyRules_cons]
      rcases hskip with hd | hn
      · rw [ruleApply_of_disabled t r hd]; exact ih
      · rw [ruleApply_of_none t r hn]; exact ih
  · intro h
    induction rules generalizing t with
    | nil => rw [← h]; exact ApplyChain.nil t
    | cons r rs ih =>
      rw [applyRules_cons] at h
      by_cases he : r.enabled = true
      · cases hre : r.regexp with
        | none =>
          have h2 : applyRules rs t = u := by
            rwa [ruleApply_of_none t r hre] at h
          exact ApplyChain.stepSkip r rs t u (Or.inr hre) (ih t h2)
        | some re =>
          have h2 : applyRules rs (replaceAllString re t r.replacement) = u := by
            rwa [ruleApply_of_enabled_some t r re he hre] at h
          exact ApplyChain.stepApply r rs t u re he hre (ih _ h2)
      · have he2 : r.enabled = false := by simpa using he
        have h2 : applyRules rs t = u := by
          rwa [ruleApply_of_disabled t r he2] at h
        exact ApplyChain.stepSkip r rs t u (Or.inl he2) (ih t h2)

/-- Witness for C1 at a concrete rule list and input. -/
theorem applyRules_chain_iff_witness : ApplyChain demoRules "a".toList "aa".toList :=
  (applyRules_chain_iff demoRules "a".toList "aa".toList).mpr (by decide)

/-- C7: `isTextContent` accepts a string exactly when it is non-empty and
contains no control character outside the common whitespace set (tab,
newline, carriage return). -/
theorem isTextContent_spec (s : Str) :
    isTextContent s = true ↔ s ≠ [] ∧ ∀ c ∈ s, ¬ isCtrlChar c :=
  isTextContent_iff s

/-- Witness for C7 at concrete accepted and rejected strings. -/
theorem isTextContent_spec_witness :
    isTextContent ('h' :: 'i' :: []) = true ∧
    isTextContent (Char.ofNat 7 :: []) = false ∧
    isTextContent [] = false :=
  ⟨(isTextContent_spec ('h' :: 'i' :: [])).mpr (by decide), by decide, by decide⟩

/-- C8: `isTextTooLarge` is true exactly when the byte length strictly
exceeds the fixed 256 KiB ceiling, and oversized text is skipped by the
monitor cycle before any transformation or write (state unchanged, no
truncation). -/
theorem isTextTooLarge_spec (s : Str) :
    (isTextTooLarge s = true ↔ 256 * 1024 < strByteLen s) ∧
    (∀ (rules : List Rule) (last : Str) (attempt : Nat → Bool),
      isTextContent s = true → isTextTooLarge s = true →
      monitorCycle rules last (.ok s) attempt = (last, .skipTooLarge)) := by
  constructor
  · unfold isTextTooLarge maxTextSize
    simp only [decide_eq_true_eq]
  · intro rules last attempt htext hlarge
    simp [monitorCycle, htext, hlarge]

/-- Witness for C8: a 256 KiB + 1 text is skipped as too large. -/
theorem isTextTooLarge_spec_witness :
    monitorCycle [] [] (.ok bigText) (fun _ => false) = ([], .skipTooLarge) := by
  have htext : isTextContent bigText = true := by
    apply (isTextContent_iff bigText).mpr
    constructor
    · have hlen : bigText.length = 256 * 1024 + 1 := List.length_replicate _ _
      intro hnil
      rw [hnil] at hlen
      exact absurd hlen (by decide)
    · intro c hc
      have hc2 : c = 'a' := List.eq_of_mem_replicate hc
      subst hc2
      decide
  have hlarge : isTextTooLarge bigText = true := by
    unfold isTextTooLarge bigText maxTextSize
    rw [strByteLen_replicate_a]
    decide
  exact (isTextTooLarge_spec bigText).2 [] [] (fun _ => false) htext hlarge

/-- C9: when no enabled rule with a valid matcher matches the text (so, in
particular, no rule matches any intermediate string, all of which equal
the input), `applyRules` returns the text unchanged. -/
theorem apply_no_match_identity (rules : List Rule) (text : Str)
    (h : ∀ r ∈ rules, r.enabled = true → ∀ re, r.regexp = some re →
      findFrom re text 0 = none) :
    applyRules rules text = text := by
  induction rules with
  | nil => rfl
  | cons r rs ih =>
    have hstep : ruleApply text r = text := by
      by_cases he : r.enabled = true
      · cases hre : r.regexp with
        | none => exact ruleApply_of_none text r hre
        | some re =>
          rw [ruleApply_of_enabled_some text r re he hre]
          exact replaceAllString_of_no_match re text r.replacement
            (h r (List.mem_cons_self r rs) he re hre)
      · exact ruleApply_of_disabled text r (by simpa using he)
    rw [applyRules_cons, hstep]
    exact ih fun r2 hr2 => h r2 (List.mem_cons_of_mem r hr2)

/-- Witness for C9: the `foo → bar` rule leaves a non-matching text
unchanged. -/
theorem apply_no_match_identity_witness :
    applyRules [fooRule] "xyz".toList = "xyz".toList :=
  apply_no_match_identity [fooRule] "xyz".toList (by
    intro r hr he re hre
    rw [List.mem_singleton] at hr
    subst hr
    have h2 : (some (mustCompile "foo".toList) : Option Re) = some re := by
      rw [← hre]
      rfl
    rw [Option.some_inj] at h2
    subst h2
    decide)

/-- C2 (counterexample): the claim additionally asserts that applying the
rules to a value the loop just wrote back always reproduces that value
(`apply(rules, T) = T`).  With the single enabled rule `a → aa` the loop
reads `a`, writes back `T = aa`, yet applying the rules to `aa` yields
`aaaa ≠ aa`: the rule engine is not idempotent on its own output. -/
theorem write_back_not_idempotent :
    monitorCycle demoRules [] (.ok "a".toList) (fun _ => true)
      = ("aa".toList, .wrote "aa".toList) ∧
    applyRules demoRules "aa".toList ≠ "aa".toList := by
  constructor
  · decide
  · decide

/-- C2 (amended): after the monitor cycle successfully writes the
transformed text `T` back, `lastText` equals `T`, and the next cycle that
reads `T` takes a branch that neither transforms nor writes — the
equality comparison with `lastText` (or, for degenerate transformed
values, the non-text or size gate) skips the cycle.  Re-applying the rules
to `T` need not reproduce `T`; the feedback avoidance rests on the
equality check, not on idempotence of the rule engine. -/
theorem write_then_next_cycle_skips (rules : List Rule) (last s last2 T : Str)
    (attempt : Nat → Bool)
    (h : monitorCycle rules last (.ok s) attempt = (last2, .wrote T)) :
    last2 = T ∧ T = applyRules rules s ∧
    ∀ attempt2 : Nat → Bool,
      (monitorCycle rules T (.ok T) attempt2).1 = T ∧
      ((monitorCycle rules T (.ok T) attempt2).2 = .unchanged ∨
       (monitorCycle rules T (.ok T) attempt2).2 = .skipNonText ∨
       (monitorCycle rules T (.ok T) attempt2).2 = .skipTooLarge) := by
  have hmain : last2 = T ∧ T = applyRules rules s := by
    by_cases c1 : isTextContent s = false
    · simp [monitorCycle, c1] at h
    · by_cases c2 : isTextTooLarge s = true
      · simp [monitorCycle, c1, c2] at h
      · by_cases c3 : s = last
        · subst c3
          simp [monitorCycle, c1, c2] at h
        · by_cases c4 : applyRules rules s = s
          · simp [monitorCycle, c1, c2, c3, c4] at h
          · by_cases c5 : (writeToClipboard attempt).1 = true
            · simp [monitorCycle, c1, c2, c3, c4, c5] at h
              exact ⟨h.1.symm.trans h.2, h.2.symm⟩
            · simp [monitorCycle, c1, c2, c3, c4, c5] at h
  refine ⟨hmain.1, hmain.2, ?_⟩
  intro attempt2
  by_cases d1 : isTextContent T = false
  · simp [monitorCycle, d1]
  · by_cases d2 : isTextTooLarge T = true
    · simp [monitorCycle, d1, d2]
    · simp [monitorCycle, d1, d2]

/-- Witness for the amended C2 at a concrete successful write. -/
theorem write_then_next_cycle_skips_witness :
    (monitorCycle demoRules "aa".toList (.ok "aa".toList) (fun _ => true)).1
      = "aa".toList ∧
    ((monitorCycle demoRules "aa".toList (.ok "aa".toList) (fun _ => true)).2
        = .unchanged ∨
     (monitorCycle demoRules "aa".toList (.ok "aa".toList) (fun _ => true)).2
        = .skipNonText ∨
     (monitorCycle demoRules "aa".toList (.ok "aa".toList) (fun _ => true)).2
        = .skipTooLarge) :=
  (write_then_next_cycle_skips demoRules [] "a".toList "aa".toList "aa".toList
    (fun _ => true) (by decide)).2.2 (fun _ => true)

/-- C3: saving the settings and loading the saved document preserves
pattern, replacement and enabled of every rule in order, and the interval
(every interval the program ever holds is a whole number of milliseconds,
which the divisibility hypothesis records); the compiled matcher is never
persisted — saving is invariant under erasing every matcher — and the
round trip holds whether or not rule patterns compile. -/
theorem save_load_round_trip (st prev : AppState)
    (h : (1000000 : Int) ∣ st.interval) :
    ((loadSettings (.parsed (saveSettings st)) prev).rules.map persistedOfRule
      = st.rules.map persistedOfRule) ∧
    (loadSettings (.parsed (saveSettings st)) prev).interval = st.interval ∧
    saveSettings st
      = saveSettings { st with rules := st.rules.map fun r => { r with regexp := none } } := by
  refine ⟨?_, ?_, ?_⟩
  · show (((saveSettings st).rules).map loadRule).map persistedOfRule
      = st.rules.map persistedOfRule
    unfold saveSettings
    rw [List.map_map, List.map_map]
    apply List.map_congr_left
    intro r _
    show persistedOfRule (loadRule
      { pattern := r.pattern, replacement := r.replacement, enabled := r.enabled })
      = persistedOfRule r
    rw [persistedOfRule_loadRule]
    rfl
  · show (saveSettings st).interval_ms * 1000000 = st.interval
    unfold saveSettings durationMilliseconds
    obtain ⟨k, hk⟩ := h
    rw [hk, Int.mul_tdiv_cancel_left _ (by norm_num)]
    ring
  · unfold saveSettings
    rw [List.map_map]
    rfl

/-- Witness for C3 at a concrete state with one valid and one invalid
pattern. -/
theorem save_load_round_trip_witness :
    ((loadSettings (.parsed (saveSettings roundTripState)) initState).rules.map persistedOfRule
      = roundTripState.rules.map persistedOfRule) ∧
    (loadSettings (.parsed (saveSettings roundTripState)) initState).interval
      = roundTripState.interval :=
  ⟨(save_load_round_trip roundTripState initState ⟨500, rfl⟩).1,
   (save_load_round_trip roundTripState initState ⟨500, rfl⟩).2.1⟩

/-- C4 (counterexample): `loadSettings` does not fall back to the default
interval on a non-positive persisted value — for `interval_ms = -5` the
resulting interval is `-5 ms` (negative, not the 500 ms default), and for
`interval_ms = 0` (the value Go's decoder produces for a missing field)
the resulting interval is `0`, again not the default. -/
theorem load_interval_counterexample :
    (loadSettings (.parsed { rules := [], interval_ms := -5 }) initState).interval
      = -5000000 ∧
    ¬ (0 ≤ (loadSettings (.parsed { rules := [], interval_ms := -5 }) initState).interval) ∧
    (loadSettings (.parsed { rules := [], interval_ms := -5 }) initState).interval
      ≠ defaultMonitorInterval ∧
    (loadSettings (.parsed { rules := [], interval_ms := 0 }) initState).interval = 0 ∧
    (loadSettings (.parsed { rules := [], interval_ms := 0 }) initState).interval
      ≠ defaultMonitorInterval := by
  refine ⟨rfl, by decide, by decide, rfl, by decide⟩

/-- C4 (amended): after a parsed settings document is loaded the interval
is exactly `interval_ms` milliseconds — zero or negative values included
(a missing field decodes to 0) — with no fallback to the default; the
default 500 ms interval survives only when the settings file is missing
or unreadable, and an unparsable file leaves the previous state
entirely unchanged. -/
theorem load_interval_behavior (doc : SettingsDoc) (prev : AppState) :
    (loadSettings (.parsed doc) prev).interval = doc.interval_ms * 1000000 ∧
    loadSettings .missing prev = { prev with rules := [] } ∧
    loadSettings .unparsable prev = prev :=
  ⟨rfl, rfl, rfl⟩

/-- C5: loading a two-rule list whose first pattern does not compile and
whose second is a valid enabled rule retains both rules in order with
their persisted fields (the invalid one with an absent matcher and its
enabled flag intact), and applying the loaded list transforms any text
exactly as the loaded valid rule alone would. -/
theorem invalid_rule_isolation (rb rg : PRule) (reG : Re)
    (hb : compile rb.pattern = none) (_hg : compile rg.pattern = some reG)
    (_hge : rg.enabled = true) (d : Int) (prev : AppState) (text : Str) :
    (loadSettings (.parsed { rules := [rb, rg], interval_ms := d }) prev).rules
      = [loadRule rb, loadRule rg] ∧
    (loadRule rb).regexp = none ∧
    persistedOfRule (loadRule rb) = rb ∧
    persistedOfRule (loadRule rg) = rg ∧
    applyRules (loadSettings (.parsed { rules := [rb, rg], interval_ms := d }) prev).rules text
      = applyRules (loadSettings (.parsed { rules := [rg], interval_ms := d }) prev).rules text := by
  have hnone := loadRule_regexp_of_compile_none rb hb
  refine ⟨rfl, hnone, persistedOfRule_loadRule rb, persistedOfRule_loadRule rg, ?_⟩
  show applyRules [loadRule rb, loadRule rg] text = applyRules [loadRule rg] text
  rw [applyRules_cons, ruleApply_of_none text (loadRule rb) hnone]

/-- Witness for C5: an unterminated class pattern next to the `foo → bar`
rule. -/
theorem invalid_rule_isolation_witness :
    applyRules (loadSettings (.parsed
        { rules := [{ pattern := "[".toList, replacement := "x".toList, enabled := true },
                    { pattern := "foo".toList, replacement := "bar".toList, enabled := true }],
          interval_ms := 700 }) initState).rules "foofoo".toList
      = applyRules (loadSettings (.parsed
          { rules := [{ pattern := "foo".toList, replacement := "bar".toList, enabled := true }],
            interval_ms := 700 }) initState).rules "foofoo".toList :=
  (invalid_rule_isolation
    { pattern := "[".toList, replacement := "x".toList, enabled := true }
    { pattern := "foo".toList, replacement := "bar".toList, enabled := true }
    (mustCompile "foo".toList) (by decide) (by decide) rfl 700 initState
    "foofoo".toList).2.2.2.2

/-- C6: when the read text passes both gates, differs from `lastText`,
and the transformation changes it, the cycle writes back with a retry
bounded by two attempts: the write succeeds exactly when one of the first
two attempts succeeds, in which case `lastText` becomes the transformed
value and the success status is reported; when both attempts fail the
error status is set and `lastText` is unchanged. -/
theorem write_retry_spec (rules : List Rule) (last s : Str) (attempt : Nat → Bool)
    (htext : isTextContent s = true) (hsize : isTextTooLarge s = false)
    (hne : s ≠ last) (hch : applyRules rules s ≠ s) :
    (writeToClipboard attempt).2 ≤ maxWriteAttempts ∧
    ((attempt 0 = true ∨ attempt 1 = true) →
      (writeToClipboard attempt).1 = true ∧
      monitorCycle rules last (.ok s) attempt
        = (applyRules rules s, .wrote (applyRules rules s))) ∧
    (attempt 0 = false → attempt 1 = false →
      writeToClipboard attempt = (false, 2) ∧
      monitorCycle rules last (.ok s) attempt
        = (last, .writeFailed (applyRules rules s))) := by
  have hw : writeToClipboard attempt
      = if attempt 0 then (true, 1) else if attempt 1 then (true, 2) else (false, 2) := rfl
  have htext2 : isTextContent s = false → False := by simp [htext]
  refine ⟨?_, ?_, ?_⟩
  · rw [hw]
    split_ifs <;> simp [maxWriteAttempts]
  · rintro (h0 | h1)
    · have hwt : (writeToClipboard attempt).1 = true := by rw [hw, if_pos h0]
      exact ⟨hwt, by simp [monitorCycle, htext, hsize, hne, hch, hwt]⟩
    · have hwt : (writeToClipboard attempt).1 = true := by
        rw [hw]
        by_cases h0 : attempt 0
        · rw [if_pos h0]
        · rw [if_neg h0, if_pos h1]
      exact ⟨hwt, by simp [monitorCycle, htext, hsize, hne, hch, hwt]⟩
  · intro h0 h1
    have hwf : writeToClipboard attempt = (false, 2) := by
      rw [hw, if_neg (by simp [h0]), if_neg (by simp [h1])]
    refine ⟨hwf, ?_⟩
    have hwt : ¬ ((writeToClipboard attempt).1 = true) := by rw [hwf]; simp
    simp [monitorCycle, htext, hsize, hne, hch, hwt]

/-- Witness for C6: a successful first attempt and a doubly failing
oracle at a concrete rule list. -/
theorem write_retry_spec_witness :
    (writeToClipboard (fun _ => true)).1 = true ∧
    monitorCycle demoRules [] (.ok "a".toList) (fun _ => true)
      = (applyRules demoRules "a".toList, .wrote (applyRules demoRules "a".toList)) ∧
    writeToClipboard (fun _ => false) = (false, 2) ∧
    monitorCycle demoRules [] (.ok "a".toList) (fun _ => false)
      = ([], .writeFailed (applyRules demoRules "a".toList)) :=
  ⟨((write_retry_spec demoRules [] "a".toList (fun _ => true)
      (by decide) (by decide) (by decide) (by decide)).2.1 (Or.inl rfl)).1,
   ((write_retry_spec demoRules [] "a".toList (fun _ => true)
      (by decide) (by decide) (by decide) (by decide)).2.1 (Or.inl rfl)).2,
   ((write_retry_spec demoRules [] "a".toList (fun _ => false)
      (by decide) (by decide) (by decide) (by decide)).2.2 rfl rfl).1,
   ((write_retry_spec demoRules [] "a".toList (fun _ => false)
      (by decide) (by decide) (by decide) (by decide)).2.2 rfl rfl).2⟩

/-- C10: the add action appends a rule exactly when the pattern and
replacement entries are non-empty and the pattern compiles; the appended
rule carries those entries, a compiled matcher and `enabled = true`, and
in every failure case the rule list is left completely unchanged. -/
theorem addRule_spec (rules : List Rule) (p r : Str) :
    ((p = [] ∨ r = [] ∨ compile p = none) → addRule rules p r = rules) ∧
    (∀ re, compile p = some re → p ≠ [] → r ≠ [] →
      addRule rules p r = rules ++
        [{ pattern := p, replacement := r, enabled := true, regexp := some re }]) := by
  constructor
  · intro h
    by_cases hpr : p = [] ∨ r = []
    · simp [addRule, hpr]
    · rcases h with h | h | h
      · exact absurd (Or.inl h) hpr
      · exact absurd (Or.inr h) hpr
      · simp [addRule, hpr, h]
  · intro re hre hp hr
    simp [addRule, hp, hr, hre]

/-- Witness for C10 at a concrete successful add. -/
theorem addRule_spec_witness :
    addRule [] "foo".toList "bar".toList
      = [{ pattern := "foo".toList, replacement := "bar".toList, enabled := true,
           regexp := some (mustCompile "foo".toList) }] :=
  (addRule_spec [] "foo".toList "bar".toList).2 (mustCompile "foo".toList)
    (by decide) (by decide) (by decide)

end ClipboardMonitor
